import Mathlib

/-!
Verification of the receipt-OCR pipeline: a shallow embedding of the text
normalizer (TextProcessor.clean_text), the heuristic classifier
(TextProcessor.classify_document and its two scoring functions), and the
pipeline orchestrators (OCRPipeline.process_image and the conditional graph
built by create_ocr_graph), together with proofs of the specified
properties.  Text is modelled as `List Char` (ASCII), scores and
confidences as exact rationals, and each Python regular-expression
substitution or search is embedded as the deterministic scanner that the
specific pattern induces (leftmost, non-overlapping matches; greedy
quantifiers are forced for these patterns because the adjacent character
classes are disjoint).
-/

set_option autoImplicit false
set_option maxRecDepth 16384

namespace OcrReceipt

/-! ### Character classes (ASCII fragment of the Python regex classes) -/

/-- ASCII decimal digit, the class `\d`. -/
def isDigitC (c : Char) : Bool := '0' ≤ c && c ≤ '9'

/-- ASCII whitespace, the class `\s` (also the set stripped by `str.strip`). -/
def isWs (c : Char) : Bool :=
  c = ' ' || c = '\t' || c = '\n' || c = '\r' || c = '\x0b' || c = '\x0c'

/-- ASCII word character, the class `\w` used by the `\b` anchors. -/
def isWordC (c : Char) : Bool := c.isAlphanum || c = '_'

/-- ASCII alphanumeric, the class `[a-zA-Z0-9]`. -/
def isAlnum (c : Char) : Bool := c.isAlphanum

/-! ### Basic string utilities -/

/-- Whether `kw` is a prefix of `l`, returning the remainder on success. -/
def chopKw : List Char → List Char → Option (List Char)
  | [], l => some l
  | _, [] => none
  | k :: ks, c :: cs => if c = k then chopKw ks cs else none

/-- Boolean prefix test. -/
def startsWithL (kw l : List Char) : Bool := (chopKw kw l).isSome

/-- Python substring containment `kw in l`. -/
def containsL (kw : List Char) : List Char → Bool
  | [] => startsWithL kw []
  | c :: cs => startsWithL kw (c :: cs) || containsL kw cs

/-- Drop trailing whitespace (structurally recursive form). -/
def stripRight : List Char → List Char
  | [] => []
  | c :: cs => if (stripRight cs).isEmpty && isWs c then [] else c :: stripRight cs

/-- `str.strip`: drop leading and trailing whitespace. -/
def stripL (l : List Char) : List Char := stripRight (l.dropWhile isWs)

/-! ### Normalizer step 1: split on newlines, strip each line, rejoin -/

/-- The first step of `clean_text`:
`'\n'.join(line.strip() for line in text.split('\n'))`. -/
def joinStripLines (l : List Char) : List Char :=
  [ '\n' ].intercalate ((l.splitOn '\n').map stripL)

/-! ### Normalizer step 2: the word-boundary substitutions `\bI\b` etc. -/

/-- Whether the head of a list is a word character (the right-hand side of a
`\b` test; an empty remainder behaves like a non-word character). -/
def headWord : List Char → Bool
  | [] => false
  | c :: _ => isWordC c

/-- Scanner for `re.sub(r'\bT\b', r, text)` for a single word character `t`:
`pw` records whether the previously scanned character was a word character. -/
def subIsoAux (t r : Char) : Bool → List Char → List Char
  | _, [] => []
  | pw, c :: cs =>
    (if c = t && !pw && !headWord cs then r else c) :: subIsoAux t r (isWordC c) cs

/-- `re.sub(r'\bT\b', r, text)` for a single word character `t`. -/
def subIso (t r : Char) (l : List Char) : List Char := subIsoAux t r false l

/-- The three OCR-digit fixes of `clean_text`, in source order:
`I -> 1`, then `O -> 0`, then `B -> 8`. -/
def subsIOB (l : List Char) : List Char :=
  subIso 'B' '8' (subIso 'O' '0' (subIso 'I' '1' l))

/-! ### Normalizer step 3: `re.sub(r'(\d+)\s*\.\s*(\d{2})', r'\1.\2', text)` -/

/-- Try to match `(\d+)\s*\.\s*(\d{2})` at the head of `l`; on success return
the replacement text `\1.\2` and the remainder after the match. -/
def dsMatch? : List Char → Option (List Char × List Char)
  | [] => none
  | c :: cs =>
    if isDigitC c then
      match (cs.dropWhile isDigitC).dropWhile isWs with
      | x :: r3 =>
        if x = '.' then
          match r3.dropWhile isWs with
          | d1 :: d2 :: r4 =>
            if isDigitC d1 && isDigitC d2 then
              some (c :: cs.takeWhile isDigitC ++ '.' :: [d1, d2], r4)
            else none
          | _ => none
        else none
      | [] => none
    else none

/-- Fueled left-to-right substitution loop for step 3 (one fuel unit per
match attempt position; `fuel = l.length` always suffices because every
iteration consumes at least one character). -/
def fixDSAux : Nat → List Char → List Char
  | 0, l => l
  | _, [] => []
  | fuel + 1, c :: cs =>
    match dsMatch? (c :: cs) with
    | some (rep, rest) => rep ++ fixDSAux fuel rest
    | none => c :: fixDSAux fuel cs

/-- Step 3 of `clean_text`: collapse whitespace around a decimal point. -/
def fixDS (l : List Char) : List Char := fixDSAux l.length l

/-! ### Normalizer step 4: `re.sub(r'(\d+)\s+(\d{2})(?=\s|$)', r'\1.\2', text)` -/

/-- The lookahead `(?=\s|$)`: the next character is whitespace, or the end
of the text is reached. -/
def wsOrEnd : List Char → Bool
  | [] => true
  | e :: _ => isWs e

/-- Try to match `(\d+)\s+(\d{2})(?=\s|$)` at the head of `l`; the
lookahead is not consumed, so the remainder starts at the character after
the two captured digits. -/
def mdMatch? : List Char → Option (List Char × List Char)
  | [] => none
  | c :: cs =>
    if isDigitC c then
      match cs.dropWhile isDigitC with
      | w :: r1 =>
        if isWs w then
          match r1.dropWhile isWs with
          | d1 :: d2 :: r3 =>
            if isDigitC d1 && isDigitC d2 && wsOrEnd r3 then
              some (c :: cs.takeWhile isDigitC ++ '.' :: [d1, d2], r3)
            else none
          | _ => none
        else none
      | [] => none
    else none

/-- Fueled substitution loop for step 4. -/
def fixMDAux : Nat → List Char → List Char
  | 0, l => l
  | _, [] => []
  | fuel + 1, c :: cs =>
    match mdMatch? (c :: cs) with
    | some (rep, rest) => rep ++ fixMDAux fuel rest
    | none => c :: fixMDAux fuel cs

/-- Step 4 of `clean_text`: insert a missing decimal point. -/
def fixMD (l : List Char) : List Char := fixMDAux l.length l

/-! ### The Normalizer: `TextProcessor.clean_text` -/

/-- `TextProcessor.clean_text` on character lists: strip each line, fix the
isolated `I`/`O`/`B` glyphs, fix decimal spacing, fix missing decimal
points, and strip the whole result. -/
def clean_text_list (l : List Char) : List Char :=
  stripL (fixMD (fixDS (subsIOB (joinStripLines l))))

/-- `TextProcessor.clean_text` on strings. -/
def clean_text (s : String) : String := ⟨clean_text_list s.data⟩

/-! ### Classifier scanners: the regex searches of the two scoring models -/

/-- Try to match `\d+\.\d{2}` at the head of `l`; on success return the
remainder after the two decimal digits. -/
def priceCore? : List Char → Option (List Char)
  | [] => none
  | c :: cs =>
    if isDigitC c then
      match cs.dropWhile isDigitC with
      | '.' :: d1 :: d2 :: r => if isDigitC d1 && isDigitC d2 then some r else none
      | _ => none
    else none

/-- Try to match `\$?\d+\.\d{2}` at the head of `l`. -/
def priceMatch? (l : List Char) : Option (List Char) :=
  match l with
  | '$' :: rest => priceCore? rest
  | _ => priceCore? l

/-- Fueled loop counting the matches of `re.findall(r'\$?\d+\.\d{2}', l)`
(leftmost, non-overlapping). -/
def countPriceAux : Nat → List Char → Nat
  | 0, _ => 0
  | _, [] => 0
  | fuel + 1, c :: cs =>
    match priceMatch? (c :: cs) with
    | some rest => countPriceAux fuel rest + 1
    | none => countPriceAux fuel cs

/-- Number of price-pattern matches found by the receipt scorer. -/
def count_price (l : List Char) : Nat := countPriceAux l.length l

/-- Whether the head of the list starts with two ASCII digits. -/
def twoDigits : List Char → Bool
  | d1 :: d2 :: _ => isDigitC d1 && isDigitC d2
  | _ => false

/-- Existence of a prefix match of `[slash-dash]\d{2,4}` (at least two digits). -/
def sepDigits2 : List Char → Bool
  | s :: rest => (s = '/' || s = '-') && twoDigits rest
  | [] => false

/-- Existence of a prefix match of `[slash-dash]\d{1,2}[slash-dash]\d{2,4}`. -/
def dateTail : List Char → Bool
  | s :: rest =>
    (s = '/' || s = '-') &&
      (match rest with
       | c :: rest2 =>
         isDigitC c && (sepDigits2 rest2 ||
           (match rest2 with
            | c2 :: rest3 => isDigitC c2 && sepDigits2 rest3
            | [] => false))
       | [] => false)
  | [] => false

/-- Existence of a prefix match of the date pattern
`\d{1,2}[slash-dash]\d{1,2}[slash-dash]\d{2,4}`. -/
def dateAt : List Char → Bool
  | c :: rest =>
    isDigitC c && (dateTail rest ||
      (match rest with
       | c2 :: rest2 => isDigitC c2 && dateTail rest2
       | [] => false))
  | [] => false

/-- `re.search` for the receipt date pattern. -/
def has_date : List Char → Bool
  | [] => false
  | c :: cs => dateAt (c :: cs) || has_date cs

/-- The character class `[oice]`. -/
def oiceChar (c : Char) : Bool := c = 'o' || c = 'i' || c = 'c' || c = 'e'

/-- Whether the head of the list is an ASCII digit. -/
def headDigit : List Char → Bool
  | c :: _ => isDigitC c
  | [] => false

/-- Existence of a prefix match of `#?\s*\d+` at a position where the
preceding `\s*` has already been consumed. -/
def hashPart : List Char → Bool
  | '#' :: rest => headDigit (rest.dropWhile isWs)
  | l => headDigit l

/-- Existence of a prefix match of `[^a-zA-Z0-9]?\s*#?\s*\d+` (both choices
for the optional leading non-alphanumeric character are tried). -/
def invTail (l : List Char) : Bool :=
  (match l with
   | c :: rest => !(isAlnum c) && hashPart (rest.dropWhile isWs)
   | [] => false)
  || hashPart (l.dropWhile isWs)

/-- Existence of a prefix match of the invoice-number pattern
`inv[oice]*[^a-zA-Z0-9]?\s*#?\s*\d+` (on lower-cased text). -/
def invNumAt : List Char → Bool
  | 'i' :: 'n' :: 'v' :: rest => invTail (rest.dropWhile oiceChar)
  | _ => false

/-- `re.search` for the invoice-number pattern. -/
def has_inv_num : List Char → Bool
  | [] => false
  | c :: cs => invNumAt (c :: cs) || has_inv_num cs

/-- Whether the list starts with one whitespace character, then `\s*`, then
the keyword `kw` (a prefix match of `\s+kw`). -/
def wsThenKw (kw : List Char) : List Char → Bool
  | c :: rest => isWs c && startsWithL kw (rest.dropWhile isWs)
  | [] => false

/-- Existence of a prefix match of `due\s+date|payment\s+due`. -/
def dueDateAt (l : List Char) : Bool :=
  (match chopKw (("due").data) l with
   | some r => wsThenKw (("date").data) r
   | none => false) ||
  (match chopKw (("payment").data) l with
   | some r => wsThenKw (("due").data) r
   | none => false)

/-- `re.search` for the invoice due-date pattern. -/
def has_due_date : List Char → Bool
  | [] => false
  | c :: cs => dueDateAt (c :: cs) || has_due_date cs

/-! ### The heuristic classifier: scores and decision -/

/-- Python `str.lower` on the ASCII range. -/
def lowerC (c : Char) : Char :=
  if 'A' ≤ c && c ≤ 'Z' then Char.ofNat (c.toNat + 32) else c

/-- Lower-casing of a text. -/
def lowerL (l : List Char) : List Char := l.map lowerC

/-- The receipt keyword list of `TextProcessor.__init__`. -/
def receiptKeywords : List (List Char) :=
  [("total").data, ("subtotal").data, ("tax").data,
   ("tip").data, ("merchant").data, ("store").data,
   ("change due").data, ("cash").data, ("card").data,
   ("payment").data, ("balance").data, ("amount").data,
   ("receipt").data, ("transaction").data, ("sale").data,
   ("terminal").data, ("register").data]

/-- The invoice keyword list of `TextProcessor.__init__`. -/
def invoiceKeywords : List (List Char) :=
  [("invoice").data, ("due date").data, ("amount due").data,
   ("billing").data, ("invoice number").data, ("account").data,
   ("payment terms").data, ("bill to").data, ("ship to").data,
   ("po number").data, ("order number").data, ("net").data,
   ("terms").data]

/-- Number of receipt keywords found as substrings
(`sum(keyword in text for keyword in ...)`). -/
def receiptKwCount (t : List Char) : Nat :=
  (receiptKeywords.filter (fun kw => containsL kw t)).length

/-- Number of invoice keywords found as substrings. -/
def invoiceKwCount (t : List Char) : Nat :=
  (invoiceKeywords.filter (fun kw => containsL kw t)).length

/-- The price-pattern component of the receipt score:
`min(price_matches / 3, 2.0)` (exact rational arithmetic). -/
def priceComponent (t : List Char) : ℚ := min ((count_price t : ℚ) / 3) 2

/-- `TextProcessor._calculate_receipt_score` (exact rational arithmetic). -/
def calculate_receipt_score (t : List Char) : ℚ :=
  (receiptKwCount t : ℚ) * (1 / 2) + priceComponent t +
    (if has_date t then 1 else 0)

/-- `TextProcessor._calculate_invoice_score` (exact rational arithmetic). -/
def calculate_invoice_score (t : List Char) : ℚ :=
  (invoiceKwCount t : ℚ) * (1 / 2) + (if has_inv_num t then 2 else 0) +
    (if has_due_date t then 1 else 0)

/-- The receipt and invoice confidences computed by
`TextProcessor.classify_document` after lower-casing (both `0` when the
combined score is `0`). -/
def confidences (t : List Char) : ℚ × ℚ :=
  let r := calculate_receipt_score (lowerL t)
  let i := calculate_invoice_score (lowerL t)
  let total := r + i
  if total > 0 then (r / total, i / total) else (0, 0)

/-- The guard of the receipt branch of `classify_document`:
`receipt_score >= 2 and receipt_confidence > 0.6`. -/
def receiptGuard (t : List Char) : Prop :=
  2 ≤ calculate_receipt_score (lowerL t) ∧ 3 / 5 < (confidences t).1

/-- The guard of the invoice branch of `classify_document`:
`invoice_score >= 2 and invoice_confidence > 0.6`. -/
def invoiceGuard (t : List Char) : Prop :=
  2 ≤ calculate_invoice_score (lowerL t) ∧ 3 / 5 < (confidences t).2

instance (t : List Char) : Decidable (receiptGuard t) := by
  unfold receiptGuard; infer_instance

instance (t : List Char) : Decidable (invoiceGuard t) := by
  unfold invoiceGuard; infer_instance

/-- `TextProcessor.classify_document` (exact rational arithmetic): returns
the document type and the confidence score. -/
def classify_document (t : List Char) : String × ℚ :=
  let rc := (confidences t).1
  let ic := (confidences t).2
  if receiptGuard t then ("receipt", rc)
  else if invoiceGuard t then ("invoice", ic)
  else ("other", max rc ic)

/-! ### The pipeline orchestrators

The OCR call, the schema-constrained classification call and the
schema-constrained extraction call are boundary interactions with external
collaborators (Tesseract and a local inference service); each is modelled
as an explicit outcome parameter (`Except`), success carrying the
collaborator result and failure carrying the exception text.  Everything
else in the stage functions and the two orchestrators is deterministic
code from the source and is embedded directly. -/

/-- The result of the LLM classification stage, the parsed JSON object
`{type, confidence}`. -/
structure Classification where
  ty : String
  confidence : ℚ
deriving DecidableEq, Repr

/-- The mutable record threaded through the pipeline (`AgentState`):
`classification = none` models the initial empty dict `{}`, and
`structured_data = none` models its initial empty dict; `error = ""` is
falsy for `state.get('error')`. -/
structure AgentState where
  image_path : String
  raw_text : String
  cleaned_text : String
  classification : Option Classification
  structured_data : Option String
  error : String
deriving DecidableEq, Repr

/-- The initial state built by `OCRPipeline.process_image` and
`process_document`. -/
def initState (p : String) : AgentState :=
  { image_path := p, raw_text := "", cleaned_text := "",
    classification := none, structured_data := none, error := "" }

/-- `OCRProcessor.process_image`: on OCR success store the raw text and its
cleaned form; on an exception record the error. -/
def ocrStep (ocrOut : Except String String) (st : AgentState) : AgentState :=
  match ocrOut with
  | .ok text => { st with raw_text := text, cleaned_text := clean_text text }
  | .error e => { st with error := "OCR processing failed: " ++ e }

/-- `DocumentClassifier.classify_document`: return the state unchanged when
an error is already set, otherwise invoke the model (the returned flag
records whether the model was invoked) and store the parsed classification,
or record the failure. -/
def classifierStep (llmOut : Except String Classification) (st : AgentState) :
    AgentState × Bool :=
  if st.error ≠ "" then (st, false)
  else
    match llmOut with
    | .ok c => ({ st with classification := some c }, true)
    | .error e => ({ st with error := "Classification failed: " ++ e }, true)

/-- The error message set by `StructuredDataExtractor.extract_data` when the
document type is `other` (or an error is already present).  The source
message wraps the word `other` in single-quote characters; those two quote
characters are omitted here (only the presence and identity of the error
matter to the properties proved below). -/
def unsupportedMsg : String :=
  "Document type other is not supported for structured data extraction"

/-- `StructuredDataExtractor.extract_data`: when an error is set or the
classification type is `other`, overwrite the error with the unsupported
message and return; with an empty classification dict the `type` lookup
raises a `KeyError` caught by the handler; otherwise invoke the model (the
flag records the invocation) and store the structured data, or record the
failure. -/
def extractorStep (llmOut : Except String String) (st : AgentState) :
    AgentState × Bool :=
  if st.error ≠ "" then ({ st with error := unsupportedMsg }, false)
  else
    match st.classification with
    -- the `KeyError` raised by the `type` lookup on an empty classification
    -- dict; the source renders the message as the quoted key name
    | none => ({ st with error := "Data extraction failed: KeyError type" }, false)
    | some c =>
      if c.ty = "other" then ({ st with error := unsupportedMsg }, false)
      else
        match llmOut with
        | .ok d => ({ st with structured_data := some d }, true)
        | .error e => ({ st with error := "Data extraction failed: " ++ e }, true)

/-- Observables of one pipeline run: the final record plus which stage
functions were entered and which collaborator models were invoked. -/
structure RunTrace where
  state : AgentState
  classifierCalled : Bool
  classifierInvoked : Bool
  extractorCalled : Bool
  extractorInvoked : Bool
deriving DecidableEq, Repr

/-- `OCRPipeline.process_image`: run the OCR stage; if no error, run the
classifier stage; if still no error, run the extractor stage. -/
def pipeline_process_image (ocrOut : Except String String)
    (clsOut : Except String Classification) (extOut : Except String String)
    (p : String) : RunTrace :=
  let s1 := ocrStep ocrOut (initState p)
  if s1.error = "" then
    let (s2, cInv) := classifierStep clsOut s1
    if s2.error = "" then
      let (s3, eInv) := extractorStep extOut s2
      { state := s3, classifierCalled := true, classifierInvoked := cInv,
        extractorCalled := true, extractorInvoked := eInv }
    else
      { state := s2, classifierCalled := true, classifierInvoked := cInv,
        extractorCalled := false, extractorInvoked := false }
  else
    { state := s1, classifierCalled := false, classifierInvoked := false,
      extractorCalled := false, extractorInvoked := false }

/-- The conditional edge `should_extract` of `create_ocr_graph`: stop at END
when an error is set or the classification type is `other` (via
`dict.get`, an empty classification compares unequal to `other`). -/
def should_extract (st : AgentState) : Bool :=
  !(st.error = "") ||
    (match st.classification with
     | some c => decide (c.ty = "other")
     | none => false)

/-- The graph orchestrator built by `create_ocr_graph` and run by
`process_document`: OCR, then (unconditionally) the classifier node, then
the extractor node unless `should_extract` routes to END. -/
def process_document (ocrOut : Except String String)
    (clsOut : Except String Classification) (extOut : Except String String)
    (p : String) : RunTrace :=
  let s1 := ocrStep ocrOut (initState p)
  let (s2, cInv) := classifierStep clsOut s1
  if should_extract s2 then
    { state := s2, classifierCalled := true, classifierInvoked := cInv,
      extractorCalled := false, extractorInvoked := false }
  else
    let (s3, eInv) := extractorStep extOut s2
    { state := s3, classifierCalled := true, classifierInvoked := cInv,
      extractorCalled := true, extractorInvoked := eInv }

/-! ### Claim-side comparison definitions and auxiliary predicates -/

/-- Modelled from the claim wording of the price pattern, for comparison
with the source pattern: a mandatorily currency-prefixed amount with
exactly two decimal digits, `\$\d+\.\d{2}` with no further digit after the
two decimals. -/
def strictPriceAt? : List Char → Option (List Char)
  | '$' :: c :: cs =>
    if isDigitC c then
      match cs.dropWhile isDigitC with
      | '.' :: d1 :: d2 :: r =>
        if isDigitC d1 && isDigitC d2 && !headDigit r then some r else none
      | _ => none
    else none
  | _ => none

/-- Fueled count of the claim-worded strict price pattern. -/
def strictPriceCountAux : Nat → List Char → Nat
  | 0, _ => 0
  | _, [] => 0
  | fuel + 1, c :: cs =>
    match strictPriceAt? (c :: cs) with
    | some rest => strictPriceCountAux fuel rest + 1
    | none => strictPriceCountAux fuel cs

/-- Number of matches of the claim-worded strict price pattern. -/
def strict_price_count (l : List Char) : Nat := strictPriceCountAux l.length l

/-- Word-character test on an optional character (absent characters behave
like non-word characters, as at the ends of the text). -/
def wordO : Option Char → Bool
  | some c => isWordC c
  | none => false

/-- Whether position `i` of `s` is isolated by word boundaries: the
neighbouring characters (if any) are both non-word characters. -/
def isolatedAt (s : List Char) (i : Nat) : Bool :=
  !(match i with
    | 0 => false
    | j + 1 => wordO (s.get? j)) && !wordO (s.get? (i + 1))

/-- The substitution rule of the three isolated-glyph fixes. -/
def iobRule (c : Char) : Char :=
  if c = 'I' then '1' else if c = 'O' then '0' else if c = 'B' then '8' else c

/-- Whether the list contains two adjacent ASCII digits. -/
def adjTwo : List Char → Bool
  | a :: b :: r => (isDigitC a && isDigitC b) || adjTwo (b :: r)
  | _ => false

/-! ### Concrete sample data used by counterexamples and witnesses -/

/-- The receipt text of the specification scenario. -/
def exReceiptRaw : String := "STORE A\nTOTAL: $12.99\nCASH $12.99\n01/02/2023"

/-- A one-keyword text giving a positive combined score. -/
def exTotalTxt : String := "total"

/-- An amount with no currency prefix and three decimal digits. -/
def exPrice999 : String := "12.999"

/-- An input on which the normalizer is not idempotent. -/
def exNonIdem : String := "1 23 45"

/-- A digit-free input exercising the isolated-glyph fixes. -/
def exDigitFree : String := "  I AM B  \n O x  "

/-- Sample collaborator outcomes for pipeline runs. -/
def exOcrText : String := "hello receipt"

/-- Sample image path. -/
def exImgPath : String := "receipt.png"

/-- Sample structured-data payload returned by the extraction model. -/
def exPayload : String := "data"

/-- Sample exception text. -/
def exErrTxt : String := "boom"

/-- A classification outcome of type `other`. -/
def clsOther : Classification := { ty := "other", confidence := 0 }

/-- A classification outcome of type `receipt`. -/
def clsReceipt : Classification := { ty := "receipt", confidence := 1 }

/-- A state that already carries an error. -/
def errState : AgentState := { initState exImgPath with error := exErrTxt }

/-! ### Shared lemmas about the classifier scores and confidences -/

theorem receipt_score_eval {t : List Char} (k p : Nat) (d : Bool)
    (hk : receiptKwCount t = k) (hp : count_price t = p) (hd : has_date t = d) :
    calculate_receipt_score t = (k : ℚ) * (1 / 2) + min ((p : ℚ) / 3) 2 +
      (if d then 1 else 0) := by
  unfold calculate_receipt_score priceComponent
  rw [hk, hp, hd]

theorem invoice_score_eval {t : List Char} (k : Nat) (n d : Bool)
    (hk : invoiceKwCount t = k) (hn : has_inv_num t = n) (hd : has_due_date t = d) :
    calculate_invoice_score t = (k : ℚ) * (1 / 2) + (if n then 2 else 0) +
      (if d then 1 else 0) := by
  unfold calculate_invoice_score
  rw [hk, hn, hd]

theorem receipt_score_nonneg (t : List Char) : 0 ≤ calculate_receipt_score t := by
  unfold calculate_receipt_score priceComponent
  have h1 : (0 : ℚ) ≤ (receiptKwCount t : ℚ) * (1 / 2) := by positivity
  have h2 : (0 : ℚ) ≤ min ((count_price t : ℚ) / 3) 2 :=
    le_min (by positivity) (by norm_num)
  have h3 : (0 : ℚ) ≤ (if has_date t then 1 else 0) := by split <;> norm_num
  linarith

theorem invoice_score_nonneg (t : List Char) : 0 ≤ calculate_invoice_score t := by
  unfold calculate_invoice_score
  have h1 : (0 : ℚ) ≤ (invoiceKwCount t : ℚ) * (1 / 2) := by positivity
  have h2 : (0 : ℚ) ≤ (if has_inv_num t then 2 else 0) := by split <;> norm_num
  have h3 : (0 : ℚ) ≤ (if has_due_date t then 1 else 0) := by split <;> norm_num
  linarith

theorem confidences_pos {t : List Char}
    (h : 0 < calculate_receipt_score (lowerL t) + calculate_invoice_score (lowerL t)) :
    confidences t =
      (calculate_receipt_score (lowerL t) /
          (calculate_receipt_score (lowerL t) + calculate_invoice_score (lowerL t)),
        calculate_invoice_score (lowerL t) /
          (calculate_receipt_score (lowerL t) + calculate_invoice_score (lowerL t))) := by
  simp only [confidences]
  rw [if_pos h]

theorem confidences_zero {t : List Char}
    (h : ¬0 < calculate_receipt_score (lowerL t) + calculate_invoice_score (lowerL t)) :
    confidences t = (0, 0) := by
  simp only [confidences]
  rw [if_neg h]

theorem confidences_sum {t : List Char}
    (h : 0 < calculate_receipt_score (lowerL t) + calculate_invoice_score (lowerL t)) :
    (confidences t).1 + (confidences t).2 = 1 := by
  rw [confidences_pos h]
  have hne : calculate_receipt_score (lowerL t) + calculate_invoice_score (lowerL t) ≠ 0 :=
    ne_of_gt h
  field_simp

theorem conf_bounds (t : List Char) :
    0 ≤ (confidences t).1 ∧ (confidences t).1 ≤ 1 ∧
      0 ≤ (confidences t).2 ∧ (confidences t).2 ≤ 1 := by
  by_cases h : 0 < calculate_receipt_score (lowerL t) + calculate_invoice_score (lowerL t)
  · rw [confidences_pos h]
    have hr := receipt_score_nonneg (lowerL t)
    have hi := invoice_score_nonneg (lowerL t)
    refine ⟨div_nonneg hr h.le, ?_, div_nonneg hi h.le, ?_⟩
    · rw [div_le_one h]; linarith
    · rw [div_le_one h]; linarith
  · rw [confidences_zero h]
    norm_num

theorem guards_exclusive (t : List Char) : ¬(receiptGuard t ∧ invoiceGuard t) := by
  rintro ⟨⟨hr2, hrc⟩, hi2, hic⟩
  have h : 0 < calculate_receipt_score (lowerL t) + calculate_invoice_score (lowerL t) := by
    linarith
  have hsum := confidences_sum h
  linarith

/-! ### Claim C3: confidence bounds and the empty-input result -/

theorem empty_kw_counts : receiptKwCount (lowerL []) = 0 ∧ invoiceKwCount (lowerL []) = 0 ∧
    count_price (lowerL []) = 0 ∧ has_date (lowerL []) = false ∧
    has_inv_num (lowerL []) = false ∧ has_due_date (lowerL []) = false := by
  decide

theorem empty_scores : calculate_receipt_score (lowerL []) = 0 ∧
    calculate_invoice_score (lowerL []) = 0 := by
  constructor
  · rw [receipt_score_eval 0 0 false empty_kw_counts.1 empty_kw_counts.2.2.1
      empty_kw_counts.2.2.2.1]
    norm_num
  · rw [invoice_score_eval 0 false false empty_kw_counts.2.1 empty_kw_counts.2.2.2.2.1
      empty_kw_counts.2.2.2.2.2]
    norm_num

/-- C3: for every input the confidence returned by `classify_document` lies
in `[0, 1]`, and on the empty input (where both scores are zero, so the
guarded normalization avoids any division) the result is `("other", 0)`. -/
theorem claim_C3 :
    (∀ t : List Char,
        0 ≤ (classify_document t).2 ∧ (classify_document t).2 ≤ 1) ∧
    classify_document [] = ("other", 0) := by
  constructor
  · intro t
    obtain ⟨h1, h2, h3, h4⟩ := conf_bounds t
    unfold classify_document
    split
    · exact ⟨h1, h2⟩
    · split
      · exact ⟨h3, h4⟩
      · exact ⟨le_max_of_le_left h1, max_le h2 h4⟩
  · have hz : ¬0 < calculate_receipt_score (lowerL []) + calculate_invoice_score (lowerL []) := by
      rw [empty_scores.1, empty_scores.2]; norm_num
    have hc := confidences_zero hz
    have hrg : ¬receiptGuard [] := by
      rintro ⟨h2, _⟩; rw [empty_scores.1] at h2; norm_num at h2
    have hig : ¬invoiceGuard [] := by
      rintro ⟨h2, _⟩; rw [empty_scores.2] at h2; norm_num at h2
    unfold classify_document
    rw [if_neg hrg, if_neg hig, hc]
    norm_num

/-! ### Claim C9: implicit normalization identity and guard exclusivity -/

/-- C9: whenever the combined score is positive the two confidences sum to
`1` exactly (in exact rational arithmetic), and consequently the receipt
and invoice branch guards of `classify_document` can never hold
simultaneously. -/
theorem claim_C9 (t : List Char) :
    (0 < calculate_receipt_score (lowerL t) + calculate_invoice_score (lowerL t) →
      (confidences t).1 + (confidences t).2 = 1) ∧
    ¬(receiptGuard t ∧ invoiceGuard t) :=
  ⟨fun h => confidences_sum h, guards_exclusive t⟩

theorem exTotal_scores : calculate_receipt_score (lowerL exTotalTxt.data) = 1 / 2 ∧
    calculate_invoice_score (lowerL exTotalTxt.data) = 0 := by
  constructor
  · rw [receipt_score_eval 1 0 false (by decide) (by decide) (by decide)]
    norm_num
  · rw [invoice_score_eval 0 false false (by decide) (by decide) (by decide)]
    norm_num

/-- Witness for C9 at the concrete text `"total"`. -/
theorem claim_C9_witness :
    0 < calculate_receipt_score (lowerL exTotalTxt.data) +
        calculate_invoice_score (lowerL exTotalTxt.data) ∧
    (confidences exTotalTxt.data).1 + (confidences exTotalTxt.data).2 = 1 := by
  have h : 0 < calculate_receipt_score (lowerL exTotalTxt.data) +
      calculate_invoice_score (lowerL exTotalTxt.data) := by
    rw [exTotal_scores.1, exTotal_scores.2]; norm_num
  exact ⟨h, (claim_C9 exTotalTxt.data).1 h⟩

/-! ### Claim C10: what a receipt or invoice result implies -/

/-- C10: whenever `classify_document` returns type `receipt` (resp.
`invoice`), the returned confidence exceeds `3/5` and the corresponding
score is at least `2`; and whenever neither branch guard holds, the result
type is `other`. -/
theorem claim_C10 (t : List Char) :
    ((classify_document t).1 = "receipt" →
      3 / 5 < (classify_document t).2 ∧ 2 ≤ calculate_receipt_score (lowerL t)) ∧
    ((classify_document t).1 = "invoice" →
      3 / 5 < (classify_document t).2 ∧ 2 ≤ calculate_invoice_score (lowerL t)) ∧
    (¬receiptGuard t ∧ ¬invoiceGuard t → (classify_document t).1 = "other") := by
  unfold classify_document
  by_cases hr : receiptGuard t
  · rw [if_pos hr]
    refine ⟨fun _ => ⟨hr.2, hr.1⟩, fun h => by simp at h, fun h => absurd hr h.1⟩
  · rw [if_neg hr]
    by_cases hi : invoiceGuard t
    · rw [if_pos hi]
      refine ⟨fun h => by simp at h, fun _ => ⟨hi.2, hi.1⟩, fun h => absurd hi h.2⟩
    · rw [if_neg hi]
      exact ⟨fun h => by simp at h, fun h => by simp at h, fun _ => rfl⟩

/-! ### Evaluation of the specification scenario text -/

theorem exReceipt_components :
    receiptKwCount (lowerL exReceiptRaw.data) = 3 ∧
    count_price (lowerL exReceiptRaw.data) = 2 ∧
    has_date (lowerL exReceiptRaw.data) = true ∧
    invoiceKwCount (lowerL exReceiptRaw.data) = 0 ∧
    has_inv_num (lowerL exReceiptRaw.data) = false ∧
    has_due_date (lowerL exReceiptRaw.data) = false := by
  decide

theorem exReceipt_rscore :
    calculate_receipt_score (lowerL exReceiptRaw.data) = 19 / 6 := by
  rw [receipt_score_eval 3 2 true exReceipt_components.1 exReceipt_components.2.1
    exReceipt_components.2.2.1]
  norm_num [min_def]

theorem exReceipt_iscore :
    calculate_invoice_score (lowerL exReceiptRaw.data) = 0 := by
  rw [invoice_score_eval 0 false false exReceipt_components.2.2.2.1
    exReceipt_components.2.2.2.2.1 exReceipt_components.2.2.2.2.2]
  norm_num

theorem exReceipt_conf : confidences exReceiptRaw.data = (1, 0) := by
  have h : 0 < calculate_receipt_score (lowerL exReceiptRaw.data) +
      calculate_invoice_score (lowerL exReceiptRaw.data) := by
    rw [exReceipt_rscore, exReceipt_iscore]; norm_num
  rw [confidences_pos h, exReceipt_rscore, exReceipt_iscore]
  norm_num

theorem exReceipt_rguard : receiptGuard exReceiptRaw.data := by
  constructor
  · rw [exReceipt_rscore]; norm_num
  · rw [exReceipt_conf]; norm_num

theorem exReceipt_classify :
    classify_document exReceiptRaw.data = ("receipt", 1) := by
  unfold classify_document
  rw [if_pos exReceipt_rguard, exReceipt_conf]

/-- Witness for C10 at the scenario text, which is classified `receipt`. -/
theorem claim_C10_witness :
    3 / 5 < (classify_document exReceiptRaw.data).2 ∧
    2 ≤ calculate_receipt_score (lowerL exReceiptRaw.data) :=
  (claim_C10 exReceiptRaw.data).1 (by rw [exReceipt_classify])

/-! ### Claim C6: receipt priority in the decision procedure -/

/-- C6: a text satisfying both branch guards would be classified `receipt`
(the receipt check comes first); since the two guards are mutually
exclusive this holds vacuously, and the enforceable half of the tie-break
is that the receipt guard alone already decides the result. -/
theorem claim_C6 (t : List Char) :
    (¬(receiptGuard t ∧ invoiceGuard t) ∨ (classify_document t).1 = "receipt") ∧
    (receiptGuard t → (classify_document t).1 = "receipt") := by
  refine ⟨Or.inl (guards_exclusive t), fun h => ?_⟩
  unfold classify_document
  rw [if_pos h]

/-- Witness for C6 at the scenario text, which satisfies the receipt
guard. -/
theorem claim_C6_witness :
    receiptGuard exReceiptRaw.data ∧
    (classify_document exReceiptRaw.data).1 = "receipt" :=
  ⟨exReceipt_rguard, (claim_C6 exReceiptRaw.data).2 exReceipt_rguard⟩

/-! ### Claim C5: the concrete scenario computation -/

/-- C5 fails as stated: the receipt score of the scenario text is `19/6`
(three keywords match: `total`, `store` and `cash`), not the claimed
`0.5 * 2 + min(2/3, 2) + 1 = 8/3`. -/
theorem claim_C5_counterexample :
    calculate_receipt_score (lowerL (clean_text exReceiptRaw).data) = 19 / 6 ∧
    containsL (("store").data) (lowerL exReceiptRaw.data) = true ∧
    ¬((19 : ℚ) / 6 = 2 * (1 / 2) + min ((2 : ℚ) / 3) 2 + 1) := by
  refine ⟨?_, by decide, ?_⟩
  · have h : clean_text exReceiptRaw = exReceiptRaw := by decide
    rw [h]; exact exReceipt_rscore
  · norm_num [min_def]

/-- C5 amended: normalization leaves the scenario text unchanged, the
keyword matches are `total`, `store` and `cash` (three of them), there are
two price matches and a date match, so the receipt score is
`0.5 * 3 + min(2/3, 2) + 1 = 19/6`, the invoice score is `0`, and the
classifier returns `("receipt", 1)`. -/
theorem claim_C5_amended :
    clean_text exReceiptRaw = exReceiptRaw ∧
    containsL (("total").data) (lowerL exReceiptRaw.data) = true ∧
    containsL (("store").data) (lowerL exReceiptRaw.data) = true ∧
    containsL (("cash").data) (lowerL exReceiptRaw.data) = true ∧
    receiptKwCount (lowerL exReceiptRaw.data) = 3 ∧
    count_price (lowerL exReceiptRaw.data) = 2 ∧
    has_date (lowerL exReceiptRaw.data) = true ∧
    calculate_receipt_score (lowerL exReceiptRaw.data) = 3 * (1 / 2) + min ((2 : ℚ) / 3) 2 + 1 ∧
    calculate_invoice_score (lowerL exReceiptRaw.data) = 0 ∧
    classify_document exReceiptRaw.data = ("receipt", 1) := by
  refine ⟨by decide, by decide, by decide, by decide, exReceipt_components.1,
    exReceipt_components.2.1, exReceipt_components.2.2.1, ?_, exReceipt_iscore,
    exReceipt_classify⟩
  rw [exReceipt_rscore]
  norm_num [min_def]

/-! ### Claim C4: the price-pattern component of the receipt score -/

/-- C4 fails as stated: on the text `12.999` (no currency prefix, three
decimal digits) the source pattern `\$?\d+\.\d{2}` finds one match, so the
price component is `1/3`, while the claim-worded strict pattern (mandatory
currency prefix, exactly two decimal digits) finds none and would
contribute `0`. -/
theorem claim_C4_counterexample :
    count_price exPrice999.data = 1 ∧
    strict_price_count exPrice999.data = 0 ∧
    priceComponent exPrice999.data = 1 / 3 ∧
    ¬(priceComponent exPrice999.data = min ((strict_price_count exPrice999.data : ℚ) / 3) 2) := by
  have h1 : count_price exPrice999.data = 1 := by decide
  have h2 : strict_price_count exPrice999.data = 0 := by decide
  have h3 : priceComponent exPrice999.data = 1 / 3 := by
    unfold priceComponent
    rw [h1]
    norm_num [min_def]
  refine ⟨h1, h2, h3, ?_⟩
  rw [h3, h2]
  norm_num [min_def]

/-- C4 amended: the price component of the receipt score contributes
`min(count / 3, 2.0)` where `count` is the number of leftmost
non-overlapping matches of `\$?\d+\.\d{2}`: an optionally currency-prefixed
amount with two decimal digits after the point (further digits may follow);
the sample counts illustrate the match semantics. -/
theorem claim_C4_amended (t : List Char) :
    calculate_receipt_score t =
      (receiptKwCount t : ℚ) * (1 / 2) + min ((count_price t : ℚ) / 3) 2 +
        (if has_date t then 1 else 0) ∧
    0 ≤ priceComponent t ∧ priceComponent t ≤ 2 ∧
    count_price (("$12.99").data) = 1 ∧
    count_price (("12.99").data) = 1 ∧
    count_price (("12.999").data) = 1 ∧
    count_price (("12.9").data) = 0 ∧
    count_price (("$12.99 x 34.56").data) = 2 := by
  refine ⟨receipt_score_eval (receiptKwCount t) (count_price t) (has_date t) rfl rfl rfl,
    le_min (by positivity) (by norm_num), min_le_right _ _,
    by decide, by decide, by decide, by decide, by decide⟩

/-! ### Shared lemmas about the orchestrators -/

theorem string_append_ne_empty {a : String} (b : String) (h : a.data ≠ []) :
    a ++ b ≠ "" := by
  intro hc
  have hd : (a ++ b).data = ([] : List Char) := by rw [hc]
  rw [String.data_append] at hd
  exact h (List.append_eq_nil.mp hd).1

/-! ### Claim C1: the fate of an `other` classification -/

/-- C1 fails as stated for the orchestrator `OCRPipeline.process_image`:
on a run whose classification resolves to `other`, that orchestrator does
invoke the Extractor, and the extractor stage records the unsupported-type
error on the final record. -/
theorem claim_C1_counterexample :
    (pipeline_process_image (Except.ok exOcrText) (Except.ok clsOther)
        (Except.ok exPayload) exImgPath).extractorCalled = true ∧
    (pipeline_process_image (Except.ok exOcrText) (Except.ok clsOther)
        (Except.ok exPayload) exImgPath).state.error = unsupportedMsg ∧
    unsupportedMsg ≠ "" := by
  decide

/-- C1 amended: in the graph orchestrator (`create_ocr_graph` /
`process_document`) a classification of type `other` is terminal:
the Extractor is never entered, and the final record has no
`structured_data` and no `error`.  The duplicate orchestrator
`OCRPipeline.process_image` instead enters the Extractor (whose guard
immediately returns without invoking the extraction model) and ends with
the unsupported-type error and no `structured_data`. -/
theorem claim_C1_amended (txt p : String) (cls : Classification)
    (extOut : Except String String) (h : cls.ty = "other") :
    (process_document (Except.ok txt) (Except.ok cls) extOut p).extractorCalled = false ∧
    (process_document (Except.ok txt) (Except.ok cls) extOut p).extractorInvoked = false ∧
    (process_document (Except.ok txt) (Except.ok cls) extOut p).state.structured_data = none ∧
    (process_document (Except.ok txt) (Except.ok cls) extOut p).state.error = "" ∧
    (pipeline_process_image (Except.ok txt) (Except.ok cls) extOut p).extractorCalled = true ∧
    (pipeline_process_image (Except.ok txt) (Except.ok cls) extOut p).extractorInvoked = false ∧
    (pipeline_process_image (Except.ok txt) (Except.ok cls) extOut p).state.structured_data = none ∧
    (pipeline_process_image (Except.ok txt) (Except.ok cls) extOut p).state.error = unsupportedMsg := by
  simp [process_document, pipeline_process_image, ocrStep, classifierStep,
    extractorStep, initState, should_extract, h]

/-- Witness for C1 amended at concrete collaborator outcomes. -/
theorem claim_C1_witness :
    clsOther.ty = "other" ∧
    (process_document (Except.ok exOcrText) (Except.ok clsOther)
        (Except.ok exPayload) exImgPath).extractorCalled = false ∧
    (pipeline_process_image (Except.ok exOcrText) (Except.ok clsOther)
        (Except.ok exPayload) exImgPath).state.error = unsupportedMsg := by
  have h := claim_C1_amended exOcrText exImgPath clsOther (Except.ok exPayload) rfl
  exact ⟨rfl, h.1, h.2.2.2.2.2.2.2⟩

/-! ### Claim C7: error short-circuiting is frame-preserving -/

/-- C7: once `error` is set, the classifier stage returns the record
unchanged without invoking its model, the extractor stage never touches
`cleaned_text`, `classification` or `structured_data` and never invokes its
model; and when the OCR stage fails, the pipeline orchestrator never enters
the classifier or extractor stages and the final record carries the OCR
error with empty `cleaned_text`, no classification and no structured
data. -/
theorem claim_C7 :
    (∀ (st : AgentState) (clsOut : Except String Classification),
      st.error ≠ "" → classifierStep clsOut st = (st, false)) ∧
    (∀ (st : AgentState) (extOut : Except String String),
      st.error ≠ "" →
        (extractorStep extOut st).1.cleaned_text = st.cleaned_text ∧
        (extractorStep extOut st).1.classification = st.classification ∧
        (extractorStep extOut st).1.structured_data = st.structured_data ∧
        (extractorStep extOut st).2 = false) ∧
    (∀ (p e : String) (clsOut : Except String Classification)
        (extOut : Except String String),
      (pipeline_process_image (Except.error e) clsOut extOut p).state.error =
          "OCR processing failed: " ++ e ∧
      (pipeline_process_image (Except.error e) clsOut extOut p).state.error ≠ "" ∧
      (pipeline_process_image (Except.error e) clsOut extOut p).state.cleaned_text = "" ∧
      (pipeline_process_image (Except.error e) clsOut extOut p).state.classification = none ∧
      (pipeline_process_image (Except.error e) clsOut extOut p).state.structured_data = none ∧
      (pipeline_process_image (Except.error e) clsOut extOut p).classifierCalled = false ∧
      (pipeline_process_image (Except.error e) clsOut extOut p).extractorCalled = false) := by
  refine ⟨?_, ?_, ?_⟩
  · intro st clsOut h
    unfold classifierStep
    rw [if_pos h]
  · intro st extOut h
    unfold extractorStep
    rw [if_pos h]
    exact ⟨rfl, rfl, rfl, rfl⟩
  · intro p e clsOut extOut
    have hne : ("OCR processing failed: " ++ e) ≠ "" :=
      string_append_ne_empty e (by decide)
    simp [pipeline_process_image, ocrStep, initState, hne]

/-- Witness for C7 at a concrete error-carrying record and concrete
collaborator outcomes. -/
theorem claim_C7_witness :
    errState.error ≠ "" ∧
    classifierStep (Except.ok clsReceipt) errState = (errState, false) ∧
    (extractorStep (Except.ok exPayload) errState).1.structured_data =
      errState.structured_data ∧
    (pipeline_process_image (Except.error exErrTxt) (Except.ok clsReceipt)
        (Except.ok exPayload) exImgPath).classifierCalled = false := by
  have h1 : errState.error ≠ "" := by decide
  refine ⟨h1, claim_C7.1 errState (Except.ok clsReceipt) h1,
    (claim_C7.2.1 errState (Except.ok exPayload) h1).2.2.1,
    (claim_C7.2.2 exImgPath exErrTxt (Except.ok clsReceipt) (Except.ok exPayload)).2.2.2.2.2.1⟩

/-! ### Positional characterization of the word-boundary substitutions -/

theorem subIsoAux_length (t r : Char) (pw : Bool) (s : List Char) :
    (subIsoAux t r pw s).length = s.length := by
  induction s generalizing pw with
  | nil => rfl
  | cons c cs ih => simp [subIsoAux, ih]

theorem headWord_eq_wordO (cs : List Char) : headWord cs = wordO (cs.get? 0) := by
  cases cs <;> rfl

theorem subIsoAux_get? (t r : Char) (s : List Char) (pw : Bool) (i : Nat) :
    (subIsoAux t r pw s).get? i = (s.get? i).map (fun c =>
      if c = t && !(if i = 0 then pw else wordO (s.get? (i - 1))) &&
          !wordO (s.get? (i + 1))
      then r else c) := by
  induction s generalizing pw i with
  | nil => simp [subIsoAux]
  | cons c cs ih =>
    cases i with
    | zero =>
      simp only [subIsoAux, List.get?, Option.map_some']
      rw [headWord_eq_wordO]
      rfl
    | succ j =>
      simp only [subIsoAux, List.get?]
      rw [ih (isWordC c) j]
      cases j with
      | zero =>
        simp only [Nat.zero_add]
        rfl
      | succ k =>
        simp only [Nat.succ_sub_one]
        rfl

theorem isolatedAt_eq (s : List Char) (i : Nat) :
    isolatedAt s i =
      (!(if i = 0 then false else wordO (s.get? (i - 1))) &&
        !wordO (s.get? (i + 1))) := by
  cases i with
  | zero => rfl
  | succ j => simp [isolatedAt]

theorem subIso_get? (t r : Char) (s : List Char) (i : Nat) :
    (subIso t r s).get? i = (s.get? i).map (fun c =>
      if c = t && isolatedAt s i then r else c) := by
  unfold subIso
  rw [subIsoAux_get?]
  cases hi : s.get? i with
  | none => rfl
  | some c =>
    simp only [Option.map_some']
    rw [isolatedAt_eq]
    congr 1
    simp [Bool.and_assoc]

theorem subIso_wordO (t r : Char) (hw : isWordC r = isWordC t) (s : List Char)
    (i : Nat) : wordO ((subIso t r s).get? i) = wordO (s.get? i) := by
  rw [subIso_get?]
  cases hi : s.get? i with
  | none => rfl
  | some c =>
    simp only [Option.map_some', wordO]
    by_cases hc : (decide (c = t) && isolatedAt s i) = true
    · simp only [if_pos hc]
      have hct : c = t := of_decide_eq_true ((Bool.and_eq_true _ _).mp hc).1
      rw [hw, hct]
    · simp only [if_neg hc]

theorem subIso_isolatedAt (t r : Char) (hw : isWordC r = isWordC t)
    (s : List Char) (i : Nat) : isolatedAt (subIso t r s) i = isolatedAt s i := by
  simp only [isolatedAt_eq, subIso_wordO t r hw]

theorem subsIOB_length (s : List Char) : (subsIOB s).length = s.length := by
  unfold subsIOB subIso
  rw [subIsoAux_length, subIsoAux_length, subIsoAux_length]

theorem subsIOB_isolatedAt (s : List Char) (i : Nat) :
    isolatedAt (subsIOB s) i = isolatedAt s i := by
  unfold subsIOB
  rw [subIso_isolatedAt 'B' '8' (by decide), subIso_isolatedAt 'O' '0' (by decide),
    subIso_isolatedAt 'I' '1' (by decide)]

theorem subsIOB_get? (s : List Char) (i : Nat) :
    (subsIOB s).get? i =
      (s.get? i).map (fun c => if isolatedAt s i then iobRule c else c) := by
  unfold subsIOB
  have hI : isWordC '1' = isWordC 'I' := by decide
  have hO : isWordC '0' = isWordC 'O' := by decide
  simp only [subIso_get?, subIso_isolatedAt 'I' '1' hI, subIso_isolatedAt 'O' '0' hO]
  cases hc : s.get? i with
  | none => rfl
  | some c =>
    simp only [Option.map_some']
    congr 1
    by_cases hiso : isolatedAt s i = true
    · simp only [hiso, Bool.and_true]
      unfold iobRule
      by_cases h1 : c = 'I'
      · subst h1; simp
      · by_cases h2 : c = 'O'
        · subst h2; simp
        · by_cases h3 : c = 'B'
          · subst h3; simp
          · simp [h1, h2, h3]
    · have h0 : isolatedAt s i = false := by
        simpa using hiso
      simp [h0]

/-- C8: the three character substitutions of the normalizer change exactly
the word-boundary-isolated occurrences of `I`, `O` and `B` (to `1`, `0`
and `8` respectively) and leave every other position — in particular these
letters inside longer words — unchanged, for every input string. -/
theorem claim_C8 (s : List Char) (i : Nat) :
    (subsIOB s).length = s.length ∧
    (subsIOB s).get? i =
      (s.get? i).map (fun c => if isolatedAt s i then iobRule c else c) :=
  ⟨subsIOB_length s, subsIOB_get? s i⟩

/-! ### Claim C2: idempotence of the normalizer

The counterexample: one pass over `"1 23 45"` rewrites only the first
whitespace gap (`re.sub` continues after each match), and the second pass
then rewrites the remaining gap. -/

/-- C2 fails as stated: `clean_text` is not idempotent. -/
theorem claim_C2_counterexample :
    clean_text (clean_text exNonIdem) ≠ clean_text exNonIdem := by
  decide

/-! #### Strip lemmas -/

theorem stripRight_cons (c : Char) (cs : List Char) :
    stripRight (c :: cs) =
      if ((stripRight cs).isEmpty && isWs c) = true then [] else c :: stripRight cs := rfl

theorem stripRight_prefixOf (l : List Char) : stripRight l <+: l := by
  induction l with
  | nil => exact List.prefix_refl _
  | cons c cs ih =>
    by_cases h : ((stripRight cs).isEmpty && isWs c) = true
    · simp only [stripRight, if_pos h]
      exact List.nil_prefix
    · simp only [stripRight, if_neg h]
      exact List.cons_prefix_cons.mpr ⟨rfl, ih⟩

theorem stripRight_idem (l : List Char) : stripRight (stripRight l) = stripRight l := by
  induction l with
  | nil => rfl
  | cons c cs ih =>
    by_cases h : ((stripRight cs).isEmpty && isWs c) = true
    · simp only [stripRight, if_pos h]
    · simp only [stripRight, if_neg h, ih]

theorem stripRight_cons_of_cons {l : List Char} {c : Char} {cs : List Char}
    (h : stripRight l = c :: cs) : ∃ cs₀, l = c :: cs₀ := by
  have hp := stripRight_prefixOf l
  rw [h] at hp
  obtain ⟨t, ht⟩ := hp
  exact ⟨cs ++ t, ht.symm⟩

theorem dropWhile_dropWhile (p : Char → Bool) (l : List Char) :
    List.dropWhile p (List.dropWhile p l) = List.dropWhile p l := by
  induction l with
  | nil => rfl
  | cons c cs ih =>
    rw [List.dropWhile_cons]
    by_cases h : p c = true
    · rw [if_pos h]; exact ih
    · rw [if_neg h, List.dropWhile_cons, if_neg h]

theorem dropWhile_stripRight {l : List Char} (h : List.dropWhile isWs l = l) :
    List.dropWhile isWs (stripRight l) = stripRight l := by
  cases hs : stripRight l with
  | nil => rfl
  | cons c cs =>
    obtain ⟨cs₀, hl⟩ := stripRight_cons_of_cons hs
    have hc : isWs c = false := by
      by_contra hc
      have hc' : isWs c = true := by
        cases hcc : isWs c
        · exact absurd hcc hc
        · rfl
      rw [hl, List.dropWhile_cons, if_pos hc'] at h
      have := (@List.dropWhile_suffix Char cs₀ isWs).length_le
      rw [h] at this
      simp at this
    rw [List.dropWhile_cons, if_neg (by simp [hc])]

theorem stripL_idem (l : List Char) : stripL (stripL l) = stripL l := by
  unfold stripL
  rw [dropWhile_stripRight (dropWhile_dropWhile isWs l), stripRight_idem]

/-! #### The substitutions commute with stripping -/

theorem ws_not_word {c : Char} (h : isWs c = true) : isWordC c = false := by
  simp only [isWs, Bool.or_eq_true, decide_eq_true_eq] at h
  rcases h with ((((h | h) | h) | h) | h) | h <;> subst h <;> decide

theorem headWord_stripRight (l : List Char) :
    headWord (stripRight l) = headWord l := by
  cases l with
  | nil => rfl
  | cons c cs =>
    by_cases h : ((stripRight cs).isEmpty && isWs c) = true
    · simp only [stripRight, if_pos h, headWord]
      exact (ws_not_word ((Bool.and_eq_true _ _).mp h).2).symm
    · simp only [stripRight, if_neg h, headWord]

theorem subIsoAux_isEmpty (t r : Char) (pw : Bool) (l : List Char) :
    (subIsoAux t r pw l).isEmpty = l.isEmpty := by
  cases l <;> simp [subIsoAux]

theorem subIsoAux_dropWhile (t r : Char) (ht : isWs t = false) (hr : isWs r = false)
    (l : List Char) :
    subIsoAux t r false (List.dropWhile isWs l) =
      List.dropWhile isWs (subIsoAux t r false l) := by
  induction l with
  | nil => rfl
  | cons c cs ih =>
    by_cases h : isWs c = true
    · have hct : decide (c = t) = false := by
        simp only [decide_eq_false_iff_not]
        intro hh
        rw [hh, ht] at h
        cases h
      rw [List.dropWhile_cons, if_pos h, ih]
      simp only [subIsoAux, hct, Bool.false_and, Bool.and_false, if_neg (by simp : ¬false = true)]
      rw [List.dropWhile_cons, if_pos h, ws_not_word h]
    · simp only [subIsoAux, List.dropWhile_cons, if_neg h]
      by_cases hc : (decide (c = t) && !false && !headWord cs) = true
      · rw [if_pos hc, if_neg (show ¬isWs r = true by simp [hr])]
      · rw [if_neg hc, if_neg h]

theorem subIsoAux_stripRight (t r : Char) (ht : isWs t = false) (hr : isWs r = false)
    (l : List Char) : ∀ pw : Bool,
    subIsoAux t r pw (stripRight l) = stripRight (subIsoAux t r pw l) := by
  induction l with
  | nil => intro pw; rfl
  | cons c cs ih =>
    intro pw
    by_cases h : ((stripRight cs).isEmpty && isWs c) = true
    · obtain ⟨he, hw⟩ := (Bool.and_eq_true _ _).mp h
      have hre : stripRight cs = [] := List.isEmpty_iff.mp he
      have hct : decide (c = t) = false := by
        simp only [decide_eq_false_iff_not]
        intro hh
        rw [hh, ht] at hw
        cases hw
      simp only [stripRight, if_pos h, subIsoAux, hct, Bool.false_and,
        if_neg (by simp : ¬false = true)]
      rw [← ih (isWordC c), hre]
      simp only [stripRight, List.isEmpty_nil, hw, Bool.and_true, subIsoAux]
      simp
    · have hsr : stripRight (c :: cs) = c :: stripRight cs := by
        rw [stripRight_cons, if_neg h]
      have hX : stripRight (subIsoAux t r (isWordC c) cs) =
          subIsoAux t r (isWordC c) (stripRight cs) := (ih (isWordC c)).symm
      have hXe : (stripRight (subIsoAux t r (isWordC c) cs)).isEmpty =
          (stripRight cs).isEmpty := by rw [hX, subIsoAux_isEmpty]
      rw [hsr]
      by_cases hc : (decide (c = t) && !pw && !headWord cs) = true
      · have hL : subIsoAux t r pw (c :: stripRight cs) =
            r :: subIsoAux t r (isWordC c) (stripRight cs) := by
          simp only [subIsoAux, headWord_stripRight]
          rw [if_pos hc]
        have hR : subIsoAux t r pw (c :: cs) = r :: subIsoAux t r (isWordC c) cs := by
          simp only [subIsoAux]
          rw [if_pos hc]
        rw [hL, hR, stripRight_cons, if_neg (by rw [hr, Bool.and_false]; simp), ← hX]
      · have hL : subIsoAux t r pw (c :: stripRight cs) =
            c :: subIsoAux t r (isWordC c) (stripRight cs) := by
          simp only [subIsoAux, headWord_stripRight]
          rw [if_neg hc]
        have hR : subIsoAux t r pw (c :: cs) = c :: subIsoAux t r (isWordC c) cs := by
          simp only [subIsoAux]
          rw [if_neg hc]
        rw [hL, hR, stripRight_cons, if_neg (by rw [hXe]; simpa using h), ← hX]

theorem subIso_stripL (t r : Char) (ht : isWs t = false) (hr : isWs r = false)
    (l : List Char) : subIso t r (stripL l) = stripL (subIso t r l) := by
  unfold subIso stripL
  rw [subIsoAux_stripRight t r ht hr _ false, subIsoAux_dropWhile t r ht hr]

theorem subsIOB_stripL (l : List Char) :
    subsIOB (stripL l) = stripL (subsIOB l) := by
  unfold subsIOB
  rw [subIso_stripL 'I' '1' (by decide) (by decide),
    subIso_stripL 'O' '0' (by decide) (by decide),
    subIso_stripL 'B' '8' (by decide) (by decide)]

/-! #### Idempotence of the substitutions -/

theorem iobRule_idem (c : Char) : iobRule (iobRule c) = iobRule c := by
  by_cases h1 : c = 'I'
  · subst h1; decide
  · by_cases h2 : c = 'O'
    · subst h2; decide
    · by_cases h3 : c = 'B'
      · subst h3; decide
      · simp [iobRule, h1, h2, h3]

theorem subsIOB_idem (s : List Char) : subsIOB (subsIOB s) = subsIOB s := by
  rw [List.ext_get?_iff]
  intro i
  rw [subsIOB_get?, subsIOB_get?, subsIOB_isolatedAt]
  cases hc : s.get? i with
  | none => rfl
  | some c =>
    simp only [Option.map_some']
    by_cases hiso : isolatedAt s i = true
    · simp [hiso, iobRule_idem]
    · have h0 : isolatedAt s i = false := by simpa using hiso
      simp [h0]

/-! #### Adjacent digit pairs: absence makes steps 3 and 4 the identity -/

theorem adjTwo_cons_false {c : Char} {cs : List Char}
    (h : adjTwo (c :: cs) = false) : adjTwo cs = false := by
  cases cs with
  | nil => rfl
  | cons b r =>
    simp only [adjTwo, Bool.or_eq_false_iff] at h
    exact h.2

theorem adjTwo_mono_suffix {q l : List Char} (hs : q <:+ l)
    (h : adjTwo q = true) : adjTwo l = true := by
  obtain ⟨t, ht⟩ := hs
  subst ht
  induction t with
  | nil => exact h
  | cons a t ih =>
    have hm : adjTwo (t ++ q) = true := ih
    cases hq : t ++ q with
    | nil =>
      rw [hq] at hm
      cases hm
    | cons b r =>
      rw [List.cons_append, hq]
      rw [hq] at hm
      simp only [adjTwo, Bool.or_eq_true]
      exact Or.inr hm

theorem adjTwo_mono_front {q l : List Char} (hp : q <+: l)
    (h : adjTwo q = true) : adjTwo l = true := by
  obtain ⟨t, ht⟩ := hp
  subst ht
  induction q with
  | nil => cases h
  | cons a q ih =>
    cases q with
    | nil => cases h
    | cons b r =>
      simp only [adjTwo, Bool.or_eq_true] at h ⊢
      rcases h with h | h
      · exact Or.inl h
      · exact Or.inr (by simpa using ih h)

theorem adjTwo_mono_within {q l : List Char} (hi : q <:+: l)
    (h : adjTwo q = true) : adjTwo l = true := by
  obtain ⟨t1, t2, ht⟩ := hi
  subst ht
  exact adjTwo_mono_suffix ⟨t1, (List.append_assoc t1 q t2).symm⟩
    (adjTwo_mono_front ⟨t2, rfl⟩ h)

theorem dsMatch?_adjTwo {l : List Char} {pr : List Char × List Char}
    (h : dsMatch? l = some pr) : adjTwo l = true := by
  cases l with
  | nil => simp [dsMatch?] at h
  | cons c cs =>
    simp only [dsMatch?] at h
    by_cases hd : isDigitC c = true
    · rw [if_pos hd] at h
      cases hm1 : (cs.dropWhile isDigitC).dropWhile isWs with
      | nil => rw [hm1] at h; simp at h
      | cons x r3 =>
        rw [hm1] at h
        dsimp only at h
        by_cases hx : x = '.'
        · rw [if_pos hx] at h
          cases hm2 : r3.dropWhile isWs with
          | nil => rw [hm2] at h; simp at h
          | cons d1 rest =>
            cases rest with
            | nil => rw [hm2] at h; simp at h
            | cons d2 r4 =>
              rw [hm2] at h
              dsimp only at h
              by_cases hdd : (isDigitC d1 && isDigitC d2) = true
              · obtain ⟨hd1, hd2⟩ := (Bool.and_eq_true _ _).mp hdd
                have hsuf : (d1 :: d2 :: r4) <:+ (c :: cs) := by
                  have s1 : (d1 :: d2 :: r4) <:+ r3 := hm2 ▸ List.dropWhile_suffix isWs
                  have s2 : r3 <:+ (x :: r3) := List.suffix_cons _ _
                  have s3 : (x :: r3) <:+ cs.dropWhile isDigitC :=
                    hm1 ▸ List.dropWhile_suffix isWs
                  have s4 : cs.dropWhile isDigitC <:+ cs := List.dropWhile_suffix isDigitC
                  have s5 : cs <:+ c :: cs := List.suffix_cons _ _
                  exact s1.trans (s2.trans (s3.trans (s4.trans s5)))
                exact adjTwo_mono_suffix hsuf (by simp [adjTwo, hd1, hd2])
              · rw [if_neg hdd] at h
                simp at h
        · rw [if_neg hx] at h
          simp at h
    · rw [if_neg hd] at h
      simp at h

theorem mdMatch?_adjTwo {l : List Char} {pr : List Char × List Char}
    (h : mdMatch? l = some pr) : adjTwo l = true := by
  cases l with
  | nil => simp [mdMatch?] at h
  | cons c cs =>
    simp only [mdMatch?] at h
    by_cases hd : isDigitC c = true
    · rw [if_pos hd] at h
      cases hm1 : cs.dropWhile isDigitC with
      | nil => rw [hm1] at h; simp at h
      | cons w r1 =>
        rw [hm1] at h
        dsimp only at h
        by_cases hw : isWs w = true
        · rw [if_pos hw] at h
          cases hm2 : r1.dropWhile isWs with
          | nil => rw [hm2] at h; simp at h
          | cons d1 rest =>
            cases rest with
            | nil => rw [hm2] at h; simp at h
            | cons d2 r3 =>
              rw [hm2] at h
              dsimp only at h
              by_cases hdd : (isDigitC d1 && isDigitC d2 && wsOrEnd r3) = true
              · obtain ⟨hdd', _⟩ := (Bool.and_eq_true _ _).mp hdd
                obtain ⟨hd1, hd2⟩ := (Bool.and_eq_true _ _).mp hdd'
                have hsuf : (d1 :: d2 :: r3) <:+ (c :: cs) := by
                  have s1 : (d1 :: d2 :: r3) <:+ r1 := hm2 ▸ List.dropWhile_suffix isWs
                  have s2 : r1 <:+ (w :: r1) := List.suffix_cons _ _
                  have s3 : (w :: r1) <:+ cs := hm1 ▸ List.dropWhile_suffix isDigitC
                  have s5 : cs <:+ c :: cs := List.suffix_cons _ _
                  exact s1.trans (s2.trans (s3.trans s5))
                exact adjTwo_mono_suffix hsuf (by simp [adjTwo, hd1, hd2])
              · rw [if_neg hdd] at h
                simp at h
        · rw [if_neg hw] at h
          simp at h
    · rw [if_neg hd] at h
      simp at h

theorem fixDSAux_id {l : List Char} (h : adjTwo l = false) :
    ∀ fuel : Nat, fixDSAux fuel l = l := by
  induction l with
  | nil => intro fuel; cases fuel <;> rfl
  | cons c cs ih =>
    intro fuel
    cases fuel with
    | zero => rfl
    | succ f =>
      have hm : dsMatch? (c :: cs) = none := by
        cases hmm : dsMatch? (c :: cs) with
        | none => rfl
        | some pr => exact absurd (dsMatch?_adjTwo hmm) (by rw [h]; simp)
      simp only [fixDSAux, hm]
      rw [ih (adjTwo_cons_false h) f]

theorem fixMDAux_id {l : List Char} (h : adjTwo l = false) :
    ∀ fuel : Nat, fixMDAux fuel l = l := by
  induction l with
  | nil => intro fuel; cases fuel <;> rfl
  | cons c cs ih =>
    intro fuel
    cases fuel with
    | zero => rfl
    | succ f =>
      have hm : mdMatch? (c :: cs) = none := by
        cases hmm : mdMatch? (c :: cs) with
        | none => rfl
        | some pr => exact absurd (mdMatch?_adjTwo hmm) (by rw [h]; simp)
      simp only [fixMDAux, hm]
      rw [ih (adjTwo_cons_false h) f]

theorem fixDS_id {l : List Char} (h : adjTwo l = false) : fixDS l = l :=
  fixDSAux_id h l.length

theorem fixMD_id {l : List Char} (h : adjTwo l = false) : fixMD l = l :=
  fixMDAux_id h l.length

/-! #### Digit-free inputs produce no adjacent digits -/

theorem adjTwo_eq_false_of {l : List Char}
    (h : ∀ (i : Nat) (d1 d2 : Char), l.get? i = some d1 → l.get? (i + 1) = some d2 →
      (isDigitC d1 && isDigitC d2) = false) : adjTwo l = false := by
  induction l with
  | nil => rfl
  | cons a cs ih =>
    cases cs with
    | nil => rfl
    | cons b r =>
      simp only [adjTwo, Bool.or_eq_false_iff]
      refine ⟨h 0 a b rfl rfl, ih ?_⟩
      intro i d1 d2 h1 h2
      exact h (i + 1) d1 d2 h1 h2

theorem iobRule_digit {c : Char} (h : isDigitC (iobRule c) = true) :
    c = 'I' ∨ c = 'O' ∨ c = 'B' ∨ isDigitC c = true := by
  by_cases h1 : c = 'I'
  · exact Or.inl h1
  · by_cases h2 : c = 'O'
    · exact Or.inr (Or.inl h2)
    · by_cases h3 : c = 'B'
      · exact Or.inr (Or.inr (Or.inl h3))
      · refine Or.inr (Or.inr (Or.inr ?_))
        simpa [iobRule, h1, h2, h3] using h

theorem iob_word {c : Char} (h : c = 'I' ∨ c = 'O' ∨ c = 'B') :
    isWordC c = true := by
  rcases h with h | h | h <;> subst h <;> decide

theorem subsIOB_noAdj {u : List Char} (hu : ∀ c ∈ u, isDigitC c = false) :
    adjTwo (subsIOB u) = false := by
  apply adjTwo_eq_false_of
  intro i d1 d2 h1 h2
  by_contra hbb
  have hdd : (isDigitC d1 && isDigitC d2) = true := by
    cases hb : (isDigitC d1 && isDigitC d2)
    · exact absurd hb hbb
    · rfl
  obtain ⟨hd1, hd2⟩ := (Bool.and_eq_true _ _).mp hdd
  rw [subsIOB_get?] at h1 h2
  obtain ⟨c1, hc1, hf1⟩ := Option.map_eq_some'.mp h1
  obtain ⟨c2, hc2, hf2⟩ := Option.map_eq_some'.mp h2
  have hiob2 : c2 = 'I' ∨ c2 = 'O' ∨ c2 = 'B' := by
    by_cases hiso : isolatedAt u (i + 1) = true
    · rw [if_pos hiso] at hf2
      rcases iobRule_digit (hf2 ▸ hd2) with h | h | h | h
      · exact Or.inl h
      · exact Or.inr (Or.inl h)
      · exact Or.inr (Or.inr h)
      · exact absurd h (by rw [hu c2 (List.get?_mem hc2)]; simp)
    · rw [if_neg hiso] at hf2
      exact absurd (hf2 ▸ hd2) (by rw [hu c2 (List.get?_mem hc2)]; simp)
  have hiso1 : isolatedAt u i = true := by
    by_contra hiso
    rw [if_neg hiso] at hf1
    exact absurd (hf1 ▸ hd1) (by rw [hu c1 (List.get?_mem hc1)]; simp)
  have hword : wordO (u.get? (i + 1)) = false := by
    rw [isolatedAt_eq] at hiso1
    exact (Bool.not_eq_true' _ |>.mp ((Bool.and_eq_true _ _).mp hiso1).2)
  rw [hc2] at hword
  simp only [wordO] at hword
  rw [iob_word hiob2] at hword
  cases hword

/-! #### Characters of the rejoined stripped lines come from the input -/

theorem mem_stripL {c : Char} {l : List Char} (h : c ∈ stripL l) : c ∈ l :=
  (List.dropWhile_suffix isWs).subset ((stripRight_prefixOf _).subset h)

theorem splitOn_cons_nl (cs : List Char) :
    ('\n' :: cs).splitOn '\n' = [] :: cs.splitOn '\n' := by
  simp [List.splitOn, List.splitOnP_cons]

theorem splitOn_cons_ne {c : Char} (hc : (c == '\n') = false) (cs : List Char) :
    (c :: cs).splitOn '\n' =
      (c :: (cs.splitOn '\n').headI) :: (cs.splitOn '\n').tail := by
  simp only [List.splitOn, List.splitOnP_cons, hc]
  cases hp : List.splitOnP (fun a => a == '\n') cs with
  | nil => exact absurd hp (List.splitOnP_ne_nil _ _)
  | cons p ps => simp [List.modifyHead]

theorem splitOn_nl_ne_nil (l : List Char) : l.splitOn '\n' ≠ [] := by
  intro h
  exact List.splitOnP_ne_nil _ l (by simpa [List.splitOn] using h)

theorem headI_pieces_mem (l : List Char) :
    (l.splitOn '\n').headI ∈ l.splitOn '\n' := by
  cases hps : l.splitOn '\n' with
  | nil => exact absurd hps (splitOn_nl_ne_nil l)
  | cons q qs => exact List.mem_cons_self _ _

theorem tail_pieces_subset {p l : List Char}
    (h : p ∈ (l.splitOn '\n').tail) : p ∈ l.splitOn '\n' := by
  cases hps : l.splitOn '\n' with
  | nil => exact absurd hps (splitOn_nl_ne_nil l)
  | cons q qs =>
    rw [hps] at h
    exact List.mem_cons_of_mem _ (by simpa using h)

theorem mem_splitOn_nl {c : Char} {p l : List Char}
    (hp : p ∈ l.splitOn '\n') (hc : c ∈ p) : c ∈ l := by
  induction l generalizing p with
  | nil =>
    simp only [List.splitOn_nil, List.mem_singleton] at hp
    subst hp
    cases hc
  | cons a l ih =>
    by_cases ha : (a == '\n') = true
    · have ha' : a = '\n' := by simpa using ha
      subst ha'
      rw [splitOn_cons_nl] at hp
      rcases List.mem_cons.mp hp with h | h
      · subst h; cases hc
      · exact List.mem_cons_of_mem _ (ih h hc)
    · rw [splitOn_cons_ne (by simpa using ha)] at hp
      rcases List.mem_cons.mp hp with h | h
      · subst h
        rcases List.mem_cons.mp hc with h' | h'
        · exact h' ▸ List.mem_cons_self _ _
        · exact List.mem_cons_of_mem _ (ih (headI_pieces_mem l) h')
      · exact List.mem_cons_of_mem _ (ih (tail_pieces_subset h) hc)

theorem mem_intersperse_nl {y : List Char} {ys : List (List Char)}
    (h : y ∈ List.intersperse ['\n'] ys) : y ∈ ys ∨ y = ['\n'] := by
  induction ys with
  | nil => cases h
  | cons p ps ih =>
    cases ps with
    | nil =>
      rw [List.intersperse_singleton] at h
      exact Or.inl h
    | cons q r =>
      rw [List.intersperse_cons_cons] at h
      rcases List.mem_cons.mp h with h | h
      · exact Or.inl (h ▸ List.mem_cons_self _ _)
      · rcases List.mem_cons.mp h with h | h
        · exact Or.inr h
        · rcases ih h with h' | h'
          · exact Or.inl (List.mem_cons_of_mem _ h')
          · exact Or.inr h'

theorem mem_intercalate_nl {c : Char} {ys : List (List Char)}
    (h : c ∈ ['\n'].intercalate ys) : c = '\n' ∨ ∃ y ∈ ys, c ∈ y := by
  rw [List.intercalate] at h
  rw [List.mem_flatten] at h
  obtain ⟨y, hy, hcy⟩ := h
  rcases mem_intersperse_nl hy with h' | h'
  · exact Or.inr ⟨y, h', hcy⟩
  · subst h'
    rcases List.mem_singleton.mp hcy with rfl
    exact Or.inl rfl

theorem joinStripLines_digit_free {l : List Char}
    (h : ∀ c ∈ l, isDigitC c = false) :
    ∀ c ∈ joinStripLines l, isDigitC c = false := by
  intro c hc
  rcases mem_intercalate_nl hc with h' | ⟨y, hy, hcy⟩
  · subst h'; decide
  · obtain ⟨p, hp, hyp⟩ := List.mem_map.mp hy
    rw [← hyp] at hcy
    exact h c (mem_splitOn_nl hp (mem_stripL hcy))

/-! #### The rejoin-split machinery for the line-strip stage -/

theorem pieces_no_nl (l : List Char) : ∀ p ∈ l.splitOn '\n', '\n' ∉ p := by
  induction l with
  | nil =>
    intro p hp
    simp only [List.splitOn_nil, List.mem_singleton] at hp
    subst hp
    simp
  | cons a l ih =>
    intro p hp
    by_cases ha : (a == '\n') = true
    · have ha' : a = '\n' := by simpa using ha
      subst ha'
      rw [splitOn_cons_nl] at hp
      rcases List.mem_cons.mp hp with h | h
      · subst h; simp
      · exact ih p h
    · rw [splitOn_cons_ne (by simpa using ha)] at hp
      rcases List.mem_cons.mp hp with h | h
      · subst h
        intro hmem
        rcases List.mem_cons.mp hmem with h' | h'
        · exact absurd (by rw [h']; simp : (a == '\n') = true) (by simpa using ha)
        · exact ih _ (headI_pieces_mem l) h'
      · exact ih p (tail_pieces_subset h)

theorem splitOn_joinStripLines (l : List Char) :
    (joinStripLines l).splitOn '\n' = (l.splitOn '\n').map stripL := by
  refine List.splitOn_intercalate _ '\n' ?_ ?_
  · intro p hp
    obtain ⟨q, hq, hpq⟩ := List.mem_map.mp hp
    intro hmem
    rw [← hpq] at hmem
    exact pieces_no_nl l q hq (mem_stripL hmem)
  · intro hmap
    exact splitOn_nl_ne_nil l (List.map_eq_nil_iff.mp hmap)

theorem joinStripLines_of_piecesStripped {l : List Char}
    (h : ∀ p ∈ l.splitOn '\n', stripL p = p) : joinStripLines l = l := by
  unfold joinStripLines
  rw [List.map_congr_left h, List.map_id']
  exact List.intercalate_splitOn l '\n'

theorem piecesStripped_joinStripLines (l : List Char) :
    ∀ p ∈ (joinStripLines l).splitOn '\n', stripL p = p := by
  intro p hp
  rw [splitOn_joinStripLines] at hp
  obtain ⟨q, _, hpq⟩ := List.mem_map.mp hp
  rw [← hpq, stripL_idem]

/-! #### The substitutions commute with line splitting -/

theorem headWord_headI_pieces (cs : List Char) :
    headWord ((cs.splitOn '\n').headI) = headWord cs := by
  cases cs with
  | nil => rfl
  | cons b r =>
    by_cases hb : (b == '\n') = true
    · have hb' : b = '\n' := by simpa using hb
      subst hb'
      rw [splitOn_cons_nl]
      simp only [List.headI, headWord]
      decide
    · rw [splitOn_cons_ne (by simpa using hb)]
      rfl

theorem subIsoAux_splitOn (t r : Char) (ht : (t == '\n') = false)
    (hr : (r == '\n') = false) (l : List Char) : ∀ pw : Bool,
    (subIsoAux t r pw l).splitOn '\n' =
      subIsoAux t r pw ((l.splitOn '\n').headI) ::
        ((l.splitOn '\n').tail).map (subIso t r) := by
  induction l with
  | nil => intro pw; rfl
  | cons c cs ih =>
    intro pw
    by_cases hc : (c == '\n') = true
    · have hc' : c = '\n' := by simpa using hc
      subst hc'
      have hct : decide ('\n' = t) = false := by
        simp only [decide_eq_false_iff_not]
        intro hh
        rw [← hh] at ht
        simp at ht
      have hw : isWordC '\n' = false := by decide
      simp only [subIsoAux, hct, Bool.false_and, if_neg (by simp : ¬false = true), hw]
      rw [splitOn_cons_nl, ih false, splitOn_cons_nl]
      cases hps : cs.splitOn '\n' with
      | nil => exact absurd hps (splitOn_nl_ne_nil cs)
      | cons p₀ ps => simp [subIso]
    · have hc' : (c == '\n') = false := by simpa using hc
      have hcnl : ((if (decide (c = t) && !pw && !headWord cs) = true then r else c)
          == '\n') = false := by
        by_cases hcc : (decide (c = t) && !pw && !headWord cs) = true
        · rw [if_pos hcc]; exact hr
        · rw [if_neg hcc]; exact hc'
      simp only [subIsoAux]
      rw [splitOn_cons_ne hcnl, ih (isWordC c), splitOn_cons_ne hc']
      simp only [subIsoAux, List.tail_cons]
      rw [headWord_headI_pieces]
      simp only [List.headI]

theorem subIso_splitOn (t r : Char) (ht : (t == '\n') = false)
    (hr : (r == '\n') = false) (l : List Char) :
    (subIso t r l).splitOn '\n' = (l.splitOn '\n').map (subIso t r) := by
  unfold subIso
  rw [subIsoAux_splitOn t r ht hr l false]
  cases hps : l.splitOn '\n' with
  | nil => exact absurd hps (splitOn_nl_ne_nil l)
  | cons p₀ ps => simp [subIso]

theorem subsIOB_splitOn (l : List Char) :
    (subsIOB l).splitOn '\n' = (l.splitOn '\n').map subsIOB := by
  unfold subsIOB
  rw [subIso_splitOn 'B' '8' (by decide) (by decide),
    subIso_splitOn 'O' '0' (by decide) (by decide),
    subIso_splitOn 'I' '1' (by decide) (by decide), List.map_map, List.map_map]
  rfl

theorem piecesStripped_subsIOB {w : List Char}
    (h : ∀ p ∈ w.splitOn '\n', stripL p = p) :
    ∀ p ∈ (subsIOB w).splitOn '\n', stripL p = p := by
  intro p hp
  rw [subsIOB_splitOn] at hp
  obtain ⟨q, hq, hpq⟩ := List.mem_map.mp hp
  rw [← hpq, ← subsIOB_stripL, h q hq]

/-! #### Stripping the whole text preserves stripped lines -/

theorem stripRight_length_le (l : List Char) : (stripRight l).length ≤ l.length :=
  (stripRight_prefixOf l).length_le

theorem stripped_cons_head {d : Char} {rest : List Char}
    (h : stripL (d :: rest) = d :: rest) : isWs d = false := by
  by_contra hd
  have hd' : isWs d = true := by
    cases hdd : isWs d
    · exact absurd hdd hd
    · rfl
  have hlen : (stripL (d :: rest)).length ≤ rest.length := by
    unfold stripL
    rw [List.dropWhile_cons, if_pos hd']
    exact le_trans (stripRight_length_le _) (List.dropWhile_suffix isWs).length_le
  rw [h] at hlen
  simp at hlen

theorem tailStripped_of_stripped {p : List Char} (h : stripL p = p) :
    stripRight p = p := by
  conv_lhs => rw [← h]
  unfold stripL
  rw [stripRight_idem]
  exact h

theorem stripRight_cons_fixed {c : Char} {p : List Char}
    (h : stripRight (c :: p) = c :: p) : stripRight p = p := by
  rw [stripRight_cons] at h
  by_cases hE : ((stripRight p).isEmpty && isWs c) = true
  · rw [if_pos hE] at h
    cases h
  · rw [if_neg hE] at h
    exact (List.cons.injEq _ _ _ _ ▸ h).2

theorem headI_pieces_eq_takeWhile (l : List Char) :
    (l.splitOn '\n').headI = l.takeWhile (fun c => !(c == '\n')) := by
  induction l with
  | nil => rfl
  | cons a l ih =>
    by_cases ha : (a == '\n') = true
    · have ha' : a = '\n' := by simpa using ha
      subst ha'
      rw [splitOn_cons_nl]
      simp [List.takeWhile_cons]
    · rw [splitOn_cons_ne (by simpa using ha)]
      simp only [List.headI, List.takeWhile_cons, ha, Bool.not_false, if_pos]
      rw [← ih]
      rfl

theorem takeWhile_cons_src {p : Char → Bool} {l x : List Char} {d : Char}
    (h : l.takeWhile p = d :: x) : (∃ y, l = d :: y) ∧ p d = true := by
  cases l with
  | nil => cases h
  | cons e l' =>
    rw [List.takeWhile_cons] at h
    by_cases hp : p e = true
    · rw [if_pos hp] at h
      have he : e = d := (List.cons.injEq _ _ _ _ ▸ h).1
      subst he
      exact ⟨⟨l', rfl⟩, hp⟩
    · rw [if_neg hp] at h
      cases h

theorem stripL_headI_of_stripRight {m : List Char}
    (hm : ∀ p ∈ m.splitOn '\n', stripL p = p)
    (ht : stripRight (((stripRight m).splitOn '\n').headI) =
      ((stripRight m).splitOn '\n').headI) :
    stripL (((stripRight m).splitOn '\n').headI) =
      ((stripRight m).splitOn '\n').headI := by
  cases hq : ((stripRight m).splitOn '\n').headI with
  | nil => rfl
  | cons d x =>
    have h4 : (stripRight m).takeWhile (fun c => !(c == '\n')) = d :: x := by
      rw [← headI_pieces_eq_takeWhile, hq]
    obtain ⟨⟨y, hy⟩, hpd⟩ := takeWhile_cons_src h4
    obtain ⟨m', hm'⟩ := stripRight_cons_of_cons hy
    have hp₀ : (m.splitOn '\n').headI = d :: m'.takeWhile (fun c => !(c == '\n')) := by
      rw [headI_pieces_eq_takeWhile, hm', List.takeWhile_cons, if_pos hpd]
    have hfull := hm _ (headI_pieces_mem m)
    rw [hp₀] at hfull
    have hd : isWs d = false := stripped_cons_head hfull
    rw [hq] at ht
    unfold stripL
    rw [List.dropWhile_cons, if_neg (by rw [hd]; simp)]
    exact ht

theorem piecesQ_stripRight : ∀ cs : List Char,
    stripRight ((cs.splitOn '\n').headI) = (cs.splitOn '\n').headI →
    (∀ p ∈ (cs.splitOn '\n').tail, stripL p = p) →
    stripRight (((stripRight cs).splitOn '\n').headI) =
        ((stripRight cs).splitOn '\n').headI ∧
      ∀ p ∈ ((stripRight cs).splitOn '\n').tail, stripL p = p := by
  intro cs
  induction cs with
  | nil => intro hq1 hq2; exact ⟨hq1, hq2⟩
  | cons c cs ih =>
    intro hq1 hq2
    by_cases hE : ((stripRight cs).isEmpty && isWs c) = true
    · rw [stripRight_cons, if_pos hE]
      refine ⟨rfl, ?_⟩
      intro p hp
      simp [List.splitOn_nil] at hp
    · rw [stripRight_cons, if_neg hE]
      by_cases hc : (c == '\n') = true
      · have hc' : c = '\n' := by simpa using hc
        subst hc'
        rw [splitOn_cons_nl] at hq2
        simp only [List.tail_cons] at hq2
        have hfull : ∀ p ∈ cs.splitOn '\n', stripL p = p := hq2
        obtain ⟨hr1, hr2⟩ := ih (tailStripped_of_stripped (hfull _ (headI_pieces_mem cs)))
          (fun p hp => hfull p (tail_pieces_subset hp))
        rw [splitOn_cons_nl]
        refine ⟨rfl, ?_⟩
        simp only [List.tail_cons]
        intro p hp
        cases hps : (stripRight cs).splitOn '\n' with
        | nil => exact absurd hps (splitOn_nl_ne_nil _)
        | cons q₀ qs =>
          rw [hps] at hp
          rcases List.mem_cons.mp hp with h | h
          · subst h
            have := stripL_headI_of_stripRight hfull hr1
            rw [hps] at this
            exact this
          · refine hr2 p ?_
            rw [hps]
            simpa using h
      · have hc' : (c == '\n') = false := by simpa using hc
        rw [splitOn_cons_ne hc'] at hq1 hq2
        simp only [List.headI_cons, List.tail_cons] at hq1 hq2
        obtain ⟨hr1, hr2⟩ := ih (stripRight_cons_fixed hq1) hq2
        rw [splitOn_cons_ne hc']
        simp only [List.headI_cons, List.tail_cons]
        refine ⟨?_, hr2⟩
        rw [stripRight_cons, hr1]
        by_cases hqe : ((((stripRight cs).splitOn '\n').headI).isEmpty && isWs c) = true
        · exfalso
          obtain ⟨hqe1, hwc⟩ := (Bool.and_eq_true _ _).mp hqe
          have hq0 : ((stripRight cs).splitOn '\n').headI = [] := List.isEmpty_iff.mp hqe1
          have hsr_ne : stripRight cs ≠ [] := by
            intro hh
            exact absurd (by rw [hh, hwc]; rfl : ((stripRight cs).isEmpty && isWs c) = true) hE
          obtain ⟨e, sr', hsr⟩ : ∃ e sr', stripRight cs = e :: sr' := by
            cases hss : stripRight cs with
            | nil => exact absurd hss hsr_ne
            | cons e sr' => exact ⟨e, sr', rfl⟩
          have htk : (stripRight cs).takeWhile (fun c => !(c == '\n')) = [] := by
            rw [← headI_pieces_eq_takeWhile, hq0]
          rw [hsr, List.takeWhile_cons] at htk
          have he : (e == '\n') = true := by
            by_contra hee
            have hee' : (e == '\n') = false := by
              cases hb : (e == '\n')
              · rfl
              · exact absurd hb hee
            rw [hee'] at htk
            simp at htk
          have he' : e = '\n' := by simpa using he
          subst he'
          obtain ⟨cs', hcs⟩ := stripRight_cons_of_cons hsr
          have hp₀ : (cs.splitOn '\n').headI = [] := by
            rw [headI_pieces_eq_takeWhile, hcs, List.takeWhile_cons]
            simp
          rw [hp₀, stripRight_cons] at hq1
          rw [if_pos (by rw [hwc]; rfl)] at hq1
          cases hq1
        · rw [if_neg hqe]

theorem piecesStripped_dropWhile {w : List Char}
    (h : ∀ p ∈ w.splitOn '\n', stripL p = p) :
    ∀ p ∈ (List.dropWhile isWs w).splitOn '\n', stripL p = p := by
  induction w with
  | nil => simpa using h
  | cons c cs ih =>
    by_cases hwc : isWs c = true
    · rw [List.dropWhile_cons, if_pos hwc]
      apply ih
      by_cases hc : (c == '\n') = true
      · have hc' : c = '\n' := by simpa using hc
        subst hc'
        rw [splitOn_cons_nl] at h
        exact fun p hp => h p (List.mem_cons_of_mem _ hp)
      · exfalso
        have hc' : (c == '\n') = false := by simpa using hc
        have hfirst := h _ (by rw [splitOn_cons_ne hc']; exact List.mem_cons_self _ _)
        exact absurd (stripped_cons_head hfirst) (by rw [hwc]; simp)
    · rw [List.dropWhile_cons, if_neg hwc]
      exact h

theorem piecesStripped_stripRight {m : List Char}
    (hm : ∀ p ∈ m.splitOn '\n', stripL p = p) :
    ∀ p ∈ (stripRight m).splitOn '\n', stripL p = p := by
  obtain ⟨hr1, hr2⟩ := piecesQ_stripRight m
    (tailStripped_of_stripped (hm _ (headI_pieces_mem m)))
    (fun p hp => hm p (tail_pieces_subset hp))
  intro p hp
  cases hps : (stripRight m).splitOn '\n' with
  | nil => exact absurd hps (splitOn_nl_ne_nil _)
  | cons q₀ qs =>
    rw [hps] at hp
    rcases List.mem_cons.mp hp with h | h
    · subst h
      have := stripL_headI_of_stripRight hm hr1
      rw [hps] at this
      exact this
    · refine hr2 p ?_
      rw [hps]
      simpa using h

theorem piecesStripped_stripL {w : List Char}
    (h : ∀ p ∈ w.splitOn '\n', stripL p = p) :
    ∀ p ∈ (stripL w).splitOn '\n', stripL p = p :=
  piecesStripped_stripRight (piecesStripped_dropWhile h)

/-! #### Idempotence on digit-free inputs -/

theorem clean_text_list_idem_of_digit_free {l : List Char}
    (h : ∀ c ∈ l, isDigitC c = false) :
    clean_text_list (clean_text_list l) = clean_text_list l := by
  have hd1 : ∀ c ∈ joinStripLines l, isDigitC c = false := joinStripLines_digit_free h
  have hAdj : adjTwo (subsIOB (joinStripLines l)) = false := subsIOB_noAdj hd1
  have hpass1 : clean_text_list l = stripL (subsIOB (joinStripLines l)) := by
    unfold clean_text_list
    rw [fixDS_id hAdj, fixMD_id hAdj]
  have hps : ∀ p ∈ (stripL (subsIOB (joinStripLines l))).splitOn '\n', stripL p = p :=
    piecesStripped_stripL (piecesStripped_subsIOB (piecesStripped_joinStripLines l))
  have hJ : joinStripLines (stripL (subsIOB (joinStripLines l))) =
      stripL (subsIOB (joinStripLines l)) :=
    joinStripLines_of_piecesStripped hps
  have hS : subsIOB (stripL (subsIOB (joinStripLines l))) =
      stripL (subsIOB (joinStripLines l)) := by
    rw [subsIOB_stripL, subsIOB_idem]
  have hAdj1 : adjTwo (stripL (subsIOB (joinStripLines l))) = false := by
    have hinf : stripL (subsIOB (joinStripLines l)) <:+: subsIOB (joinStripLines l) :=
      (stripRight_prefixOf _).isInfix.trans (List.dropWhile_suffix isWs).isInfix
    cases hb : adjTwo (stripL (subsIOB (joinStripLines l)))
    · rfl
    · exact absurd (adjTwo_mono_within hinf hb) (by rw [hAdj]; simp)
  rw [hpass1]
  conv_lhs => unfold clean_text_list
  rw [hJ, hS, fixDS_id hAdj1, fixMD_id hAdj1, stripL_idem]

/-- C2 amended: the normalizer is not idempotent on all inputs (the
missing-decimal-point rewrite can fire again on the text produced by a
previous pass, see the counterexample at `"1 23 45"`); it is idempotent on
every input that contains no ASCII digit. -/
theorem claim_C2_amended (s : String) (h : ∀ c ∈ s.data, isDigitC c = false) :
    clean_text (clean_text s) = clean_text s := by
  unfold clean_text
  exact congrArg String.mk (clean_text_list_idem_of_digit_free h)

/-- Witness for C2 amended at a concrete digit-free input. -/
theorem claim_C2_witness :
    (∀ c ∈ exDigitFree.data, isDigitC c = false) ∧
    clean_text (clean_text exDigitFree) = clean_text exDigitFree :=
  ⟨by decide, claim_C2_amended exDigitFree (by decide)⟩

end OcrReceipt
